import Mathlib

/-!
Verification of the Swarm Protocol orchestration engine
(`src/backend/swarm_protocol.py`): the hash-chained TrustGraph ledger,
the three workflow execution strategies, the meta-audit phase and the
task status state machine.

The Python source is shallowly embedded: dictionaries become association
lists over a JSON value type, `time.time()` / `uuid4()` / ISO timestamps
are supplied by an explicit generator `gen : Nat → LogMeta`, the ledger
file becomes an explicit `FS` state threaded through the operations, and
`try/except` becomes `Except String`.  The SHA-256 digest from `hashlib`
is an external library primitive and is therefore a parameter
`hashFn : String → String` of the environment; every property proved
below holds for an arbitrary digest function.
-/

set_option linter.unusedVariables false

namespace Swarm

/-- `AgentType` enumeration (swarm_protocol.py lines 28-36). -/
inductive AgentType where
  | builderAgent
  | signalAgent
  | permitAgent
  | refactorAgent
  | predictiveAgent
  | complianceAgent
  | metaAuditor
deriving DecidableEq

/-- The string value of each `AgentType` member. -/
def AgentType.value : AgentType → String
  | .builderAgent => "BuilderAgent"
  | .signalAgent => "SignalAgent"
  | .permitAgent => "PermitAgent"
  | .refactorAgent => "RefactorAgent"
  | .predictiveAgent => "PredictiveAgent"
  | .complianceAgent => "ComplianceAgent"
  | .metaAuditor => "MetaAuditor"

/-- `WorkflowType` enumeration (lines 38-42). -/
inductive WorkflowType where
  | sequential
  | parallel
  | hybrid
deriving DecidableEq

def WorkflowType.value : WorkflowType → String
  | .sequential => "sequential"
  | .parallel => "parallel"
  | .hybrid => "hybrid"

/-- `TaskStatus` enumeration (lines 44-50). -/
inductive TaskStatus where
  | pending
  | running
  | completed
  | failed
  | audited
deriving DecidableEq

def TaskStatus.value : TaskStatus → String
  | .pending => "pending"
  | .running => "running"
  | .completed => "completed"
  | .failed => "failed"
  | .audited => "audited"

/-- JSON-like Python values (dict / list / str / number / bool / None).
Numbers are modelled as rationals. -/
inductive Json where
  | null
  | bool (b : Bool)
  | num (q : ℚ)
  | str (s : String)
  | arr (xs : List Json)
  | obj (kvs : List (String × Json))

/-- A Python dict with string keys, in insertion order. -/
abbrev Dict := List (String × Json)

/-- `d.get(k)` on a Python dict. -/
def dget (d : Dict) (k : String) : Option Json :=
  match d.find? (fun kv => kv.1 == k) with
  | some kv => some kv.2
  | none => none

/-- `d[k] = v` on a Python dict: overwrite in place, else append. -/
def pySetD (d : Dict) (k : String) (v : Json) : Dict :=
  if (d.find? (fun kv => kv.1 == k)).isSome then
    d.map (fun kv => if kv.1 == k then (kv.1, v) else kv)
  else d ++ [(k, v)]

/-- `d.update(u)` on a Python dict. -/
def dictUpdate (d u : Dict) : Dict :=
  u.foldl (fun acc kv => pySetD acc kv.1 kv.2) d

/-- `d.get(k, {})` coerced to a dict (non-dict values give `[]`). -/
def getSubDict (d : Dict) (k : String) : Dict :=
  match dget d k with
  | some (.obj kvs) => kvs
  | _ => []

/-- Python truthiness of a value (used by `if audit_result['passed']`). -/
def pyTruthy : Json → Bool
  | .null => false
  | .bool b => b
  | .num q => q != 0
  | .str s => s != ""
  | .arr xs => !xs.isEmpty
  | .obj kvs => !kvs.isEmpty

/-- Insert one key/value pair into a key-sorted pair list. -/
def insertKV (kv : String × Json) : List (String × Json) → List (String × Json)
  | [] => [kv]
  | x :: xs => if kv.1 ≤ x.1 then kv :: x :: xs else x :: insertKV kv xs

/-- Sort a pair list by key (the `sort_keys=True` of `json.dumps`). -/
def sortKVs (l : List (String × Json)) : List (String × Json) :=
  l.foldr insertKV []

mutual

/-- Recursively sort all object keys, as `json.dumps(..., sort_keys=True)` does. -/
def sortJson : Json → Json
  | .null => .null
  | .bool b => .bool b
  | .num q => .num q
  | .str s => .str s
  | .arr xs => .arr (sortJsonL xs)
  | .obj kvs => .obj (sortKVs (sortJsonO kvs))

def sortJsonL : List Json → List Json
  | [] => []
  | x :: xs => sortJson x :: sortJsonL xs

def sortJsonO : List (String × Json) → List (String × Json)
  | [] => []
  | kv :: kvs => (kv.1, sortJson kv.2) :: sortJsonO kvs

end

/-- Escape a string for JSON output (quote and backslash). -/
def jsonEscape (s : String) : String :=
  s.data.foldl
    (fun acc c =>
      if c = '\"' then acc ++ "\\\""
      else if c = '\\' then acc ++ "\\\\"
      else acc.push c) ""

/-- Render a rational the way the serializer prints a number.  (Python
prints floats in decimal; the exact digit string is abstracted, only
injectivity on the modelled values matters for the hash input.) -/
def renderNum (q : ℚ) : String :=
  if q.den = 1 then toString q.num else toString q.num ++ "/" ++ toString q.den

mutual

/-- `json.dumps` with the default separators `", "` and `": "`. -/
def render : Json → String
  | .null => "null"
  | .bool true => "true"
  | .bool false => "false"
  | .num q => renderNum q
  | .str s => "\"" ++ jsonEscape s ++ "\""
  | .arr xs => "[" ++ renderL xs ++ "]"
  | .obj kvs => "\x7b" ++ renderO kvs ++ "\x7d"

def renderL : List Json → String
  | [] => ""
  | [x] => render x
  | x :: y :: xs => render x ++ ", " ++ renderL (y :: xs)

def renderO : List (String × Json) → String
  | [] => ""
  | [kv] => "\"" ++ jsonEscape kv.1 ++ "\": " ++ render kv.2
  | kv :: kv2 :: kvs =>
      "\"" ++ jsonEscape kv.1 ++ "\": " ++ render kv.2 ++ ", " ++ renderO (kv2 :: kvs)

end

mutual

/-- Python `repr` of a value (used by `str(result)` in the MetaAuditor). -/
def pyRepr : Json → String
  | .null => "None"
  | .bool true => "True"
  | .bool false => "False"
  | .num q => renderNum q
  | .str s => "'" ++ s ++ "'"
  | .arr xs => "[" ++ pyReprL xs ++ "]"
  | .obj kvs => "\x7b" ++ pyReprO kvs ++ "\x7d"

def pyReprL : List Json → String
  | [] => ""
  | [x] => pyRepr x
  | x :: y :: xs => pyRepr x ++ ", " ++ pyReprL (y :: xs)

def pyReprO : List (String × Json) → String
  | [] => ""
  | [kv] => "'" ++ kv.1 ++ "': " ++ pyRepr kv.2
  | kv :: kv2 :: kvs => "'" ++ kv.1 ++ "': " ++ pyRepr kv.2 ++ ", " ++ pyReprO (kv2 :: kvs)

end

/-- `pat in s` on strings (substring containment, nonempty pattern). -/
def strContains (s pat : String) : Bool :=
  (s.splitOn pat).length > 1

/-- `AgentAction` (lines 52-69): one capability invocation record.  The
optional / dynamically typed fields hold raw Python values (`Json`); the
creation timestamp `time.time()` is a rational supplied by the caller. -/
structure AgentAction where
  agent_id : String
  agent_type : AgentType
  action : String
  tool : String
  vault : Json := .null
  proposal : Json := .null
  score : Json := .null
  comment : Json := .null
  timestamp : ℚ
  context : Json := .null
  metadata : Json := .null

/-- The `action_dict` built identically in `_generate_hash` (lines
398-410) and `_save_trust_graph_entry` (lines 443-455). -/
def actionDictJson (a : AgentAction) : Json :=
  .obj [("agent_id", .str a.agent_id),
        ("agent_type", .str a.agent_type.value),
        ("action", .str a.action),
        ("tool", .str a.tool),
        ("vault", a.vault),
        ("proposal", a.proposal),
        ("score", a.score),
        ("comment", a.comment),
        ("timestamp", .num a.timestamp),
        ("context", a.context),
        ("metadata", a.metadata)]

def optStrJson : Option String → Json
  | none => .null
  | some s => .str s

/-- `TrustGraphEntry` (lines 71-79). -/
structure TrustGraphEntry where
  entry_id : String
  agent_action : AgentAction
  previous_hash : Option String := none
  current_hash : Option String := none
  ipfs_reference : Json := .null
  verified : Bool := false

/-- The `data` dict hashed by `_generate_hash` (lines 412-417):
entry id, action fields, previous hash, and the wall-clock time read
inside `_generate_hash` (the write timestamp `now`). -/
def hashInputJson (e : TrustGraphEntry) (now : ℚ) : Json :=
  .obj [("entry_id", .str e.entry_id),
        ("agent_action", actionDictJson e.agent_action),
        ("previous_hash", optStrJson e.previous_hash),
        ("timestamp", .num now)]

/-- `_generate_hash` (lines 395-419): digest of the canonical
(sorted-key) serialization of `hashInputJson`.  `hashFn` stands for the
external `hashlib.sha256(...).hexdigest()`. -/
def generateHash (hashFn : String → String) (e : TrustGraphEntry) (now : ℚ) : String :=
  hashFn (render (sortJson (hashInputJson e now)))

/-- One line of the `trustgraph.jsonl` file: the dict written by
`_save_trust_graph_entry` (lines 457-465), i.e. the entry plus the
distinct ISO write timestamp `datetime.now().isoformat()`. -/
structure SavedRecord where
  entry : TrustGraphEntry
  saved_at : String

/-- The ledger file state.  `lines = none` models a file that does not
exist yet; `readOk` / `writeOk` model transient I/O health of the next
read / append. -/
structure FS where
  lines : Option (List SavedRecord) := none
  readOk : Bool := true
  writeOk : Bool := true

def FS.records (fs : FS) : List SavedRecord := fs.lines.getD []

/-- The body of `_get_latest_hash` (lines 421-434) before its
`except` clause: missing file gives `None`, an I/O failure raises, else
the `current_hash` of the last line. -/
def getLatestHashTry (fs : FS) : Except String (Option String) :=
  match fs.lines with
  | none => .ok none
  | some rs =>
      if fs.readOk then
        match rs.getLast? with
        | none => .ok none
        | some r => .ok r.entry.current_hash
      else .error "read failure"

/-- `_get_latest_hash` (lines 421-437): the `except` clause catches any
failure and returns `None`. -/
def getLatestHash (fs : FS) : Option String :=
  match getLatestHashTry fs with
  | .ok v => v
  | .error _ => none

/-- Appending one serialized line (`aiofiles.open(..., 'a')` +
`write`, lines 467-468); opening in append mode creates the file. -/
def saveEntryTry (fs : FS) (r : SavedRecord) : Except String FS :=
  if fs.writeOk then .ok { fs with lines := some (fs.records ++ [r]) }
  else .error "write failure"

/-- The fresh values consumed by one `log_agent_action` call:
`uuid.uuid4()`, the action's `time.time()`, the `time.time()` read in
`_generate_hash`, and the `datetime.now().isoformat()` of the save. -/
structure LogMeta where
  entryId : String
  actionTime : ℚ
  hashTime : ℚ
  savedAt : String

/-- A registered agent: identifier, type, and its `execute` coroutine
(`.error` models a raised exception). -/
structure AgentInstance where
  agent_id : String
  agent_type : AgentType
  execute : Dict → Except String Dict

/-- The protocol environment: the agent registry `self.agents` (as the
list of registered instances in registration order) and the digest
primitive. -/
structure Env where
  agents : List AgentInstance
  hashFn : String → String

/-- `_get_agent_by_type` (lines 388-393): first registered instance of
the given type. -/
def getAgentByType (env : Env) (t : AgentType) : Option AgentInstance :=
  env.agents.find? (fun a => a.agent_type == t)

/-- The entry built by `log_agent_action` (lines 126-139): fresh id,
`previous_hash` from the (exception-catching) `_get_latest_hash`, then
`current_hash` from `_generate_hash`. -/
def mkEntry (env : Env) (meta : LogMeta) (fs : FS) (action : AgentAction) :
    TrustGraphEntry :=
  let e0 : TrustGraphEntry := { entry_id := meta.entryId, agent_action := action,
                                previous_hash := getLatestHash fs }
  { e0 with current_hash := some (generateHash env.hashFn e0 meta.hashTime) }

/-- `log_agent_action` (lines 122-149): read the head hash (via the
catching `_get_latest_hash`), build the entry, hash it, append it.  A
save failure is re-raised (`raise` in the outer `except`). -/
def logAgentAction (env : Env) (meta : LogMeta) (fs : FS) (action : AgentAction) :
    Except String (TrustGraphEntry × FS) :=
  let e1 := mkEntry env meta fs action
  match saveEntryTry fs { entry := e1, saved_at := meta.savedAt } with
  | .ok fs1 => .ok (e1, fs1)
  | .error msg => .error msg

/-- The filter of `get_trust_graph_entries`: keep an entry when no type
filter is given or `agent_action['agent_type'] == agent_type.value`. -/
def entryMatches (filt : Option AgentType) (r : SavedRecord) : Bool :=
  match filt with
  | none => true
  | some t => r.entry.agent_action.agent_type == t

/-- The scan loop of `get_trust_graph_entries` (lines 480-487): walk the
file from the beginning, breaking as soon as `limit` entries have been
collected. -/
def collectEntries (filt : Option AgentType) (limit : ℕ) :
    List SavedRecord → List SavedRecord → List SavedRecord
  | [], acc => acc
  | l :: ls, acc =>
      if acc.length ≥ limit then acc
      else if entryMatches filt l then collectEntries filt limit ls (acc ++ [l])
      else collectEntries filt limit ls acc

/-- Python `entries[-limit:]` (line 489). -/
def pyTailSlice {α : Type} (xs : List α) (limit : ℕ) : List α :=
  if limit = 0 then xs else xs.drop (xs.length - limit)

/-- The body of `get_trust_graph_entries` (lines 474-489) before its
`except` clause: open the file (raises if missing or unreadable), scan,
slice. -/
def getEntriesTry (fs : FS) (filt : Option AgentType) (limit : ℕ) :
    Except String (List SavedRecord) :=
  match fs.lines with
  | none => .error "file not found"
  | some rs =>
      if fs.readOk then .ok (pyTailSlice (collectEntries filt limit rs []) limit)
      else .error "read failure"

/-- `get_trust_graph_entries` (lines 474-493): the `except` clause
catches any failure and returns `[]`. -/
def getTrustGraphEntries (fs : FS) (filt : Option AgentType) (limit : ℕ) :
    List SavedRecord :=
  match getEntriesTry fs filt limit with
  | .ok v => v
  | .error _ => []

/-- The aggregate of `_execute_sequential_workflow` (lines 219-223):
`workflow_type` is `'sequential'`, plus the per-kind results map and the
running context. -/
structure SeqResult where
  results : List (AgentType × Dict)
  final_context : Dict

/-- The aggregate of `_execute_parallel_workflow` (lines 259-263). -/
structure ParResult where
  results : List (AgentType × Dict)
  context : Dict

/-- The result dict returned by `execute_workflow`: one of the three
strategy shapes (`_execute_hybrid_workflow` returns either the hybrid
combination, lines 301-306, or the bare sequential aggregate, line 308). -/
inductive WfResult where
  | seq (r : SeqResult)
  | par (r : ParResult)
  | hyb (sequentialR : SeqResult) (parallelR : ParResult)
        (combined : List (AgentType × Dict))

/-- The `'workflow_type'` value of a result dict. -/
def WfResult.workflowType : WfResult → String
  | .seq _ => "sequential"
  | .par _ => "parallel"
  | .hyb _ _ _ => "hybrid"

/-- Whether the aggregate carries a `'combined_results'` map. -/
def WfResult.hasCombined : WfResult → Bool
  | .hyb _ _ _ => true
  | _ => false

/-- A per-kind results map rendered as the JSON object the serializer
produces (str-Enum keys serialize as their values). -/
def rmapToJson (m : List (AgentType × Dict)) : Json :=
  .obj (m.map (fun p => (p.1.value, Json.obj p.2)))

/-- The result dict as a JSON value (used when it is embedded in an
action's `context` and serialized). -/
def WfResult.toJson : WfResult → Json
  | .seq r => .obj [("workflow_type", .str "sequential"),
                    ("results", rmapToJson r.results),
                    ("final_context", .obj r.final_context)]
  | .par r => .obj [("workflow_type", .str "parallel"),
                    ("results", rmapToJson r.results),
                    ("context", .obj r.context)]
  | .hyb s p c =>
      .obj [("workflow_type", .str "hybrid"),
            ("sequential_results",
              .obj [("workflow_type", .str "sequential"),
                    ("results", rmapToJson s.results),
                    ("final_context", .obj s.final_context)]),
            ("parallel_results",
              .obj [("workflow_type", .str "parallel"),
                    ("results", rmapToJson p.results),
                    ("context", .obj p.context)]),
            ("combined_results", rmapToJson c)]

/-- `result.get(k, default)` on the result dict. -/
def WfResult.get (r : WfResult) (k : String) : Option Json :=
  match r.toJson with
  | .obj kvs => dget kvs k
  | _ => none

/-- `SwarmTask` (lines 81-93).  `result` is set by `execute_workflow`;
`audit_log` collects the raw appended messages. -/
structure SwarmTask where
  task_id : String := ""
  title : String
  description : String
  workflow_type : WorkflowType
  agents : List AgentType
  context : Dict := []
  priority : ℕ := 1
  created_at : ℚ := 0
  status : TaskStatus := .pending
  result : Option WfResult := none
  audit_log : List Json := []

/-- `task.dict()` (pydantic serialization, consumed by the audit
context and ultimately by `json.dumps`; str-Enums serialize as their
values). -/
def taskToJson (t : SwarmTask) : Json :=
  .obj [("task_id", .str t.task_id),
        ("title", .str t.title),
        ("description", .str t.description),
        ("workflow_type", .str t.workflow_type.value),
        ("agents", .arr (t.agents.map (fun a => .str a.value))),
        ("context", .obj t.context),
        ("priority", .num t.priority),
        ("created_at", .num t.created_at),
        ("status", .str t.status.value),
        ("result", match t.result with
                   | none => .null
                   | some r => r.toJson),
        ("audit_log", .arr t.audit_log)]

/-- The dict `\x7b'error': str(e)\x7d` recorded for a failed invocation. -/
def errDict (msg : String) : Dict := [("error", .str msg)]

/-- `results[agent_type] = v` on the per-kind results map (Python dict
assignment: overwrite in place, else append). -/
def pySetR (m : List (AgentType × Dict)) (k : AgentType) (v : Dict) :
    List (AgentType × Dict) :=
  if (m.find? (fun kv => kv.1 == k)).isSome then
    m.map (fun kv => if kv.1 == k then (kv.1, v) else kv)
  else m ++ [(k, v)]

/-- `results.get(k)` on the per-kind results map. -/
def rget (m : List (AgentType × Dict)) (k : AgentType) : Option Dict :=
  match m.find? (fun kv => kv.1 == k) with
  | some kv => some kv.2
  | none => none

/-- `\x7b**a, **b\x7d` merging of two per-kind results maps
(lines 296-299). -/
def mergeResults (a b : List (AgentType × Dict)) : List (AgentType × Dict) :=
  b.foldl (fun m p => pySetR m p.1 p.2) a

/-- The `AgentAction` built for one workflow invocation
(lines 203-212 / 236-245): verb `execute`, tool `workflow`, proposal =
task title, score / comment from the agent's result, and the context the
source passes (the updated running context for sequential, the task's
context for parallel). -/
def mkInvokeAction (ag : AgentInstance) (t : AgentType) (title : String)
    (ctx : Dict) (r : Dict) (ts : ℚ) : AgentAction :=
  { agent_id := ag.agent_id,
    agent_type := t,
    action := "execute",
    tool := "workflow",
    proposal := .str title,
    score := (dget r "confidence").getD (.num 0),
    comment := (dget r "summary").getD (.str ""),
    timestamp := ts,
    context := .obj ctx }

/-- The loop of `_execute_sequential_workflow` (lines 188-217).  An
unregistered kind is skipped; a raising agent records `errDict`; after a
successful invocation the running context is updated and the action
logged — if that ledger append raises, the `except` overwrites the
recorded result with `errDict` and the loop continues. -/
def seqGo (env : Env) (gen : ℕ → LogMeta) (title : String) :
    List AgentType → Dict → List (AgentType × Dict) → FS → ℕ →
    (List (AgentType × Dict)) × Dict × FS × ℕ
  | [], ctx, res, fs, n => (res, ctx, fs, n)
  | t :: ts, ctx, res, fs, n =>
      match getAgentByType env t with
      | none => seqGo env gen title ts ctx res fs n
      | some ag =>
          match ag.execute ctx with
          | .error e => seqGo env gen title ts ctx (pySetR res t (errDict e)) fs n
          | .ok r =>
              let res1 := pySetR res t r
              let ctx1 := dictUpdate ctx (getSubDict r "context_updates")
              let act := mkInvokeAction ag t title ctx1 r (gen n).actionTime
              match logAgentAction env (gen n) fs act with
              | .error e =>
                  seqGo env gen title ts ctx1 (pySetR res1 t (errDict e)) fs (n + 1)
              | .ok (_, fs1) => seqGo env gen title ts ctx1 res1 fs1 (n + 1)

/-- `_execute_sequential_workflow` (lines 183-223): the running context
starts from `task.context.copy()`. -/
def execSequentialTask (env : Env) (gen : ℕ → LogMeta) (task : SwarmTask)
    (fs : FS) (n : ℕ) : SeqResult × FS × ℕ :=
  let (res, ctx, fs1, n1) := seqGo env gen task.title task.agents task.context [] fs n
  ({ results := res, final_context := ctx }, fs1, n1)

/-- The branches of `_execute_parallel_workflow` (lines 227-255), one
per capability kind, in `task.agents` order: each invokes the agent
against the unmodified `task.context`; an unregistered kind yields
`\x7b'error': 'Agent not found'\x7d` without any ledger append.  The
concurrent ledger appends are modelled in task-list order (the
single-writer serialization the design requires). -/
def parGo (env : Env) (gen : ℕ → LogMeta) (title : String) (ctx0 : Dict) :
    List AgentType → FS → ℕ → (List (AgentType × Dict)) × FS × ℕ
  | [], fs, n => ([], fs, n)
  | t :: ts, fs, n =>
      match getAgentByType env t with
      | none =>
          let (rest, fs1, n1) := parGo env gen title ctx0 ts fs n
          ((t, errDict "Agent not found") :: rest, fs1, n1)
      | some ag =>
          match ag.execute ctx0 with
          | .error e =>
              let (rest, fs1, n1) := parGo env gen title ctx0 ts fs n
              ((t, errDict e) :: rest, fs1, n1)
          | .ok r =>
              let act := mkInvokeAction ag t title ctx0 r (gen n).actionTime
              match logAgentAction env (gen n) fs act with
              | .error e =>
                  let (rest, fs1, n1) := parGo env gen title ctx0 ts fs (n + 1)
                  ((t, errDict e) :: rest, fs1, n1)
              | .ok (_, fs1) =>
                  let (rest, fs2, n2) := parGo env gen title ctx0 ts fs1 (n + 1)
                  ((t, r) :: rest, fs2, n2)

/-- `_execute_parallel_workflow` (lines 225-263): gather all branches
(join order = list order) and build the results dict from the pairs. -/
def execParallelTask (env : Env) (gen : ℕ → LogMeta) (task : SwarmTask)
    (fs : FS) (n : ℕ) : ParResult × FS × ℕ :=
  let (lst, fs1, n1) := parGo env gen task.title task.context task.agents fs n
  ({ results := lst.foldl (fun m p => pySetR m p.1 p.2) [],
     context := task.context }, fs1, n1)

/-- `priority_agents` (line 271). -/
def priorityAgents : List AgentType := [.builderAgent, .permitAgent]

/-- The inner sequential-phase task built by `_execute_hybrid_workflow`
(lines 272-280). -/
def hybridSeqTask (task : SwarmTask) : SwarmTask :=
  { title := task.title ++ "_sequential",
    description := "Sequential phase",
    workflow_type := .sequential,
    agents := task.agents.filter (fun a => priorityAgents.contains a),
    context := task.context }

/-- The inner parallel-phase task built by `_execute_hybrid_workflow`
(lines 285-293), running in the context produced by the sequential
phase. -/
def hybridParTask (task : SwarmTask) (ctx : Dict) : SwarmTask :=
  { title := task.title ++ "_parallel",
    description := "Parallel phase",
    workflow_type := .parallel,
    agents := task.agents.filter (fun a => !priorityAgents.contains a),
    context := ctx }

/-- `_execute_hybrid_workflow` (lines 265-308): priority kinds first,
sequentially, then the remaining kinds in parallel on the produced
context; with no remaining kinds the sequential aggregate is returned
as-is. -/
def execHybridTask (env : Env) (gen : ℕ → LogMeta) (task : SwarmTask)
    (fs : FS) (n : ℕ) : WfResult × FS × ℕ :=
  let (s, fs1, n1) := execSequentialTask env gen (hybridSeqTask task) fs n
  if (task.agents.filter (fun a => !priorityAgents.contains a)).isEmpty then
    (.seq s, fs1, n1)
  else
    let (p, fs2, n2) :=
      execParallelTask env gen (hybridParTask task s.final_context) fs1 n1
    (.hyb s p (mergeResults s.results p.results), fs2, n2)

/-- The strategy dispatch of `execute_workflow` (lines 159-164).  The
embedded strategies catch their internal failures, so the dispatch
itself always returns; it is still typed in `Except` because the
surrounding `try` of `execute_workflow` guards arbitrary exceptions. -/
def dispatchStrategy (env : Env) (gen : ℕ → LogMeta) (task : SwarmTask)
    (fs : FS) (n : ℕ) : Except String (WfResult × FS × ℕ) :=
  match task.workflow_type with
  | .sequential =>
      let (s, fs1, n1) := execSequentialTask env gen task fs n
      .ok (.seq s, fs1, n1)
  | .parallel =>
      let (p, fs1, n1) := execParallelTask env gen task fs n
      .ok (.par p, fs1, n1)
  | .hybrid => .ok (execHybridTask env gen task fs n)

/-- `_get_esg_criteria` (lines 354-372). -/
def esgCriteriaJson : Json :=
  .obj [("environmental",
          .obj [("carbon_impact", .str "positive"),
                ("renewable_energy", .str "required"),
                ("sustainability_score", .num (7/10))]),
        ("social",
          .obj [("community_benefit", .str "required"),
                ("job_creation", .str "positive"),
                ("accessibility", .str "inclusive")]),
        ("governance",
          .obj [("transparency", .str "required"),
                ("compliance", .str "required"),
                ("stakeholder_engagement", .str "positive")])]

/-- The dict returned by `_meta_audit_result` (lines 315-318, 341-345,
349-352).  The no-auditor and exception branches carry no
`compliance_score` key, hence the `Option`. -/
structure AuditOut where
  passed : Bool
  audit_message : Json
  compliance_score : Option Json := none

/-- `_meta_audit_result` (lines 310-352): look up the meta-auditor (if
absent, trivially pass with no score), invoke it on task + result + ESG
criteria, log the audit action, and read `passed` (truthiness, default
`True`), the summary and the score out of its result.  Any exception —
from the auditor or from the ledger append — is caught and reported as
a failed audit. -/
def metaAudit (env : Env) (gen : ℕ → LogMeta) (task : SwarmTask)
    (result : WfResult) (fs : FS) (n : ℕ) : AuditOut × FS × ℕ :=
  match getAgentByType env .metaAuditor with
  | none =>
      ({ passed := true,
         audit_message := .str "No meta-auditor available, skipping audit" }, fs, n)
  | some auditor =>
      let audCtx : Dict := [("task", taskToJson task),
                            ("result", result.toJson),
                            ("esg_criteria", esgCriteriaJson)]
      match auditor.execute audCtx with
      | .error e =>
          ({ passed := false, audit_message := .str ("Audit failed: " ++ e) }, fs, n)
      | .ok r =>
          let act : AgentAction :=
            { agent_id := auditor.agent_id,
              agent_type := .metaAuditor,
              action := "audit",
              tool := "meta_audit",
              proposal := .str task.title,
              score := (dget r "compliance_score").getD (.num 0),
              comment := (dget r "audit_summary").getD (.str ""),
              timestamp := (gen n).actionTime,
              context := .obj audCtx }
          match logAgentAction env (gen n) fs act with
          | .error e =>
              ({ passed := false,
                 audit_message := .str ("Audit failed: " ++ e) }, fs, n + 1)
          | .ok (_, fs1) =>
              ({ passed := (match dget r "passed" with
                            | none => true
                            | some j => pyTruthy j),
                 audit_message := (dget r "audit_summary").getD (.str "Audit completed"),
                 compliance_score := some ((dget r "compliance_score").getD (.num 1)) },
               fs1, n + 1)

/-- `_log_workflow_completion` (lines 374-386): one final
`workflow_complete` action; a ledger failure here propagates (no local
`try`). -/
def logWorkflowCompletion (env : Env) (gen : ℕ → LogMeta) (task : SwarmTask)
    (result : WfResult) (fs : FS) (n : ℕ) : Except String (FS × ℕ) :=
  let act : AgentAction :=
    { agent_id := "swarm_protocol",
      agent_type := .builderAgent,
      action := "workflow_complete",
      tool := "swarm_protocol",
      proposal := .str task.title,
      score := (result.get "overall_score").getD (.num 0),
      comment := .str ("Workflow " ++ task.workflow_type.value ++
                       " completed with status " ++ task.status.value),
      timestamp := (gen n).actionTime,
      context := .obj [("task_id", .str task.task_id),
                       ("result_summary", result.toJson)] }
  match logAgentAction env (gen n) fs act with
  | .ok (_, fs1) => .ok (fs1, n + 1)
  | .error e => .error e

/-- The observable outcome of `execute_workflow`: the returned result or
the propagated exception, the sequence of statuses assigned to
`task.status` (in assignment order), whether the audit phase ran, the
task record after its mutations, and the ledger state. -/
structure ExecOutcome where
  result : Except String WfResult
  statusTrace : List TaskStatus
  auditRan : Bool
  finalTask : SwarmTask
  fs : FS
  next : ℕ

/-- `execute_workflow` (lines 151-181), parameterized by the strategy
runner `run` (the dispatch of lines 159-164): set `RUNNING`, run the
strategy, meta-audit the result, set `AUDITED`/`FAILED`, store the
result and audit message, log completion.  Any exception in the `try`
sets `FAILED` and re-raises; in particular a raising strategy skips the
audit phase, and a failing completion append overwrites the status with
`FAILED`. -/
def executeWorkflowWith
    (run : SwarmTask → FS → ℕ → Except String (WfResult × FS × ℕ))
    (env : Env) (gen : ℕ → LogMeta) (task : SwarmTask) (fs : FS) (n : ℕ) :
    ExecOutcome :=
  let t1 := { task with status := TaskStatus.running }
  match run t1 fs n with
  | .error e =>
      { result := .error e,
        statusTrace := [.running, .failed],
        auditRan := false,
        finalTask := { t1 with status := .failed },
        fs := fs, next := n }
  | .ok (r, fs1, n1) =>
      let audOut := metaAudit env gen t1 r fs1 n1
      let aud := audOut.1
      let fs2 := audOut.2.1
      let n2 := audOut.2.2
      let st := if aud.passed then TaskStatus.audited else TaskStatus.failed
      let t2 := { t1 with
        status := st,
        result := some r,
        audit_log := t1.audit_log ++ [aud.audit_message] }
      match logWorkflowCompletion env gen t2 r fs2 n2 with
      | .error e =>
          { result := .error e,
            statusTrace := [.running, st, .failed],
            auditRan := true,
            finalTask := { t2 with status := .failed },
            fs := fs2, next := n2 }
      | .ok (fs3, n3) =>
          { result := .ok r,
            statusTrace := [.running, st],
            auditRan := true,
            finalTask := t2,
            fs := fs3, next := n3 }

/-- `execute_workflow` with the real strategy dispatch. -/
def executeWorkflow (env : Env) (gen : ℕ → LogMeta) (task : SwarmTask)
    (fs : FS) (n : ℕ) : ExecOutcome :=
  executeWorkflowWith (dispatchStrategy env gen) env gen task fs n

/-- `MetaAuditor._calculate_esg_score` (lines 837-850) applied to the
lowered `str(result)`: base 0.8 plus keyword bonuses, capped at 1. -/
def calcEsgScore (resultRepr : String) : ℚ :=
  let s := resultRepr.toLower
  let b1 : ℚ := if strContains s "environmental" then 1/10 else 0
  let b2 : ℚ := if strContains s "social" then 5/100 else 0
  let b3 : ℚ := if strContains s "governance" then 5/100 else 0
  min (8/10 + b1 + b2 + b3) 1

/-- `MetaAuditor._generate_recommendations` (lines 852-862). -/
def metaAuditorRecommendations (score : ℚ) : List Json :=
  (if score < 7/10 then
      [Json.str "Improve environmental impact assessment",
       Json.str "Enhance stakeholder engagement"]
   else []) ++
  (if score < 8/10 then [Json.str "Strengthen governance transparency"] else [])

/-- `MetaAuditor.execute` (lines 804-835): score the result repr against
the ESG criteria, pass iff the score reaches 0.7.  `now` is the
`time.time()` read for the audit id. -/
def metaAuditorExecute (now : ℚ) (ctx : Dict) : Except String Dict :=
  let taskJ := (dget ctx "task").getD (.obj [])
  let resultJ := (dget ctx "result").getD (.obj [])
  let score := calcEsgScore (pyRepr resultJ)
  let passed := decide (score ≥ 7/10)
  .ok [("audit_id", .str ("AUDIT_" ++ toString now.floor)),
       ("type", .str "meta_audit"),
       ("target", match taskJ with
                  | .obj kvs => (dget kvs "title").getD (.str "unknown")
                  | _ => .str "unknown"),
       ("esg_score", .num score),
       ("compliance_score", .num score),
       ("passed", .bool passed),
       ("audit_summary",
         .str ("ESG compliance audit " ++ (if passed then "passed" else "failed") ++
               " with score " ++ renderNum score)),
       ("recommendations", .arr (metaAuditorRecommendations score))]

/-- The registered `MetaAuditor` instance (lines 798-802), with its
wall-clock reading fixed by the caller. -/
def metaAuditorAgent (now : ℚ) : AgentInstance :=
  { agent_id := "meta_auditor_001",
    agent_type := .metaAuditor,
    execute := metaAuditorExecute now }

/-- A sequence of `log_agent_action` calls performed one at a time (the
single-writer discipline). -/
def appendAll (env : Env) (gen : ℕ → LogMeta) :
    List AgentAction → FS → ℕ → Except String (FS × ℕ)
  | [], fs, n => .ok (fs, n)
  | a :: rest, fs, n =>
      match logAgentAction env (gen n) fs a with
      | .error e => .error e
      | .ok (_, fs1) => appendAll env gen rest fs1 (n + 1)

/-! ### Hash-chain integrity machinery -/

/-- The head hash after a list of records, starting from `h`. -/
def headAfter (h : Option String) : List SavedRecord → Option String
  | [] => h
  | r :: rs => headAfter r.entry.current_hash rs

/-- The chain invariant: the first record points at `h` and every later
record points at its predecessor's `current_hash`. -/
def chainOk : Option String → List SavedRecord → Bool
  | _, [] => true
  | h, r :: rs => (r.entry.previous_hash == h) && chainOk r.entry.current_hash rs

theorem getLatestHash_eq_headAfter (fs : FS) (hr : fs.readOk = true) :
    getLatestHash fs = headAfter none fs.records := by
  have key : ∀ (rs : List SavedRecord) (h : Option String),
      (match rs.getLast? with
       | none => h
       | some r => r.entry.current_hash) = headAfter h rs := by
    intro rs
    induction rs with
    | nil => intro h; rfl
    | cons r t ih =>
        intro h
        cases t with
        | nil => simp [headAfter]
        | cons y ys =>
            rw [List.getLast?_cons_cons]
            simpa [headAfter] using ih r.entry.current_hash
  cases hfs : fs.lines with
  | none => simp [getLatestHash, getLatestHashTry, FS.records, hfs, headAfter]
  | some rs =>
      simp only [getLatestHash, getLatestHashTry, FS.records, hfs, hr, if_true,
        Option.getD_some]
      cases hlast : rs.getLast? with
      | none => simpa [hlast] using key rs none
      | some r => simpa [hlast] using key rs none

theorem logAgentAction_of_writeOk (env : Env) (meta : LogMeta) (fs : FS)
    (a : AgentAction) (hw : fs.writeOk = true) :
    logAgentAction env meta fs a =
      .ok (mkEntry env meta fs a,
           { fs with lines := some (fs.records ++ [⟨mkEntry env meta fs a, meta.savedAt⟩]) }) := by
  simp [logAgentAction, saveEntryTry, hw]

theorem mkEntry_previous (env : Env) (meta : LogMeta) (fs : FS) (a : AgentAction) :
    (mkEntry env meta fs a).previous_hash = getLatestHash fs := rfl

theorem chainOk_snoc (x : SavedRecord) :
    ∀ (rs : List SavedRecord) (h : Option String),
      chainOk h rs = true → x.entry.previous_hash = headAfter h rs →
      chainOk h (rs ++ [x]) = true := by
  intro rs
  induction rs with
  | nil =>
      intro h _ hx
      simp [chainOk, headAfter] at hx ⊢
      exact hx
  | cons r t ih =>
      intro h hc hx
      simp only [chainOk, Bool.and_eq_true] at hc
      simp only [List.cons_append, chainOk, Bool.and_eq_true]
      exact ⟨hc.1, ih r.entry.current_hash hc.2 hx⟩

theorem chainOk_head (h : Option String) (r : SavedRecord) (rs : List SavedRecord)
    (hc : chainOk h (r :: rs) = true) : r.entry.previous_hash = h := by
  simp only [chainOk, Bool.and_eq_true, beq_iff_eq] at hc
  exact hc.1

theorem chainOk_link :
    ∀ (rs : List SavedRecord) (h : Option String), chainOk h rs = true →
      ∀ i (hi : i + 1 < rs.length),
        (rs.get ⟨i + 1, hi⟩).entry.previous_hash
          = (rs.get ⟨i, Nat.lt_of_succ_lt hi⟩).entry.current_hash := by
  intro rs
  induction rs with
  | nil => intro h _ i hi; simp at hi
  | cons r t ih =>
      intro h hc i hi
      simp only [chainOk, Bool.and_eq_true] at hc
      cases i with
      | zero =>
          simp only [List.length_cons, Nat.lt_add_one_iff] at hi
          cases t with
          | nil => simp at hi
          | cons y ys =>
              have := chainOk_head r.entry.current_hash y ys hc.2
              simpa [List.get] using this
      | succ j =>
          have hj : j + 1 < t.length := by
            simpa [List.length_cons, Nat.succ_lt_succ_iff] using hi
          have := ih r.entry.current_hash hc.2 j hj
          simpa [List.get] using this

/-- With enough room in `limit`, the scan of `get_trust_graph_entries`
collects every record. -/
theorem collectEntries_all :
    ∀ (rs acc : List SavedRecord) (limit : ℕ),
      acc.length + rs.length ≤ limit →
      collectEntries none limit rs acc = acc ++ rs := by
  intro rs
  induction rs with
  | nil => intro acc limit _; simp [collectEntries]
  | cons r t ih =>
      intro acc limit hle
      have hlt : acc.length < limit := by
        simp [List.length_cons] at hle; omega
      have : ¬ acc.length ≥ limit := by omega
      have hle2 : (acc ++ [r]).length + t.length ≤ limit := by
        simp only [List.length_append, List.length_cons, List.length_nil] at hle ⊢
        omega
      simp only [collectEntries, entryMatches, if_neg this, if_pos trivial, if_true]
      rw [ih (acc ++ [r]) limit hle2]
      simp

theorem appendAll_invariant (env : Env) (gen : ℕ → LogMeta) :
    ∀ (acts : List AgentAction) (fs : FS) (n : ℕ),
      fs.readOk = true → fs.writeOk = true → chainOk none fs.records = true →
      ∃ fs' n', appendAll env gen acts fs n = .ok (fs', n')
        ∧ fs'.readOk = true ∧ fs'.writeOk = true
        ∧ chainOk none fs'.records = true
        ∧ fs'.records.length = fs.records.length + acts.length := by
  intro acts
  induction acts with
  | nil =>
      intro fs n hr hw hc
      exact ⟨fs, n, rfl, hr, hw, hc, by simp⟩
  | cons a rest ih =>
      intro fs n hr hw hc
      set x : SavedRecord := ⟨mkEntry env (gen n) fs a, (gen n).savedAt⟩ with hx
      have hlog := logAgentAction_of_writeOk env (gen n) fs a hw
      set fs1 : FS := { fs with lines := some (fs.records ++ [x]) } with hfs1
      have hrec1 : fs1.records = fs.records ++ [x] := by simp [hfs1, FS.records]
      have hr1 : fs1.readOk = true := hr
      have hw1 : fs1.writeOk = true := hw
      have hprev : x.entry.previous_hash = headAfter none fs.records := by
        rw [hx]
        simpa [mkEntry_previous] using getLatestHash_eq_headAfter fs hr
      have hc1 : chainOk none fs1.records = true := by
        rw [hrec1]
        exact chainOk_snoc x fs.records none hc hprev
      obtain ⟨fs', n', heq, h1, h2, h3, h4⟩ := ih fs1 (n + 1) hr1 hw1 hc1
      refine ⟨fs', n', ?_, h1, h2, h3, ?_⟩
      · simp only [appendAll, hlog]
        exact heq
      · rw [h4, hrec1]
        simp [List.length_append]
        omega

theorem pyTailSlice_full {α : Type} (xs : List α) : pyTailSlice xs xs.length = xs := by
  unfold pyTailSlice
  by_cases h : xs.length = 0
  · simp [h]
  · simp [h]

/-- C1.  Hash-chain integrity: starting from an empty ledger file, any
sequence of N successful single-writer appends (`log_agent_action` one
at a time) succeeds and leaves a file of exactly N entries that reads
back in write order with `entry[i].previous_hash = entry[i-1].current_hash`
for every `i > 0` and `entry[0].previous_hash = null`. -/
theorem C1_hashChainIntegrity (env : Env) (gen : ℕ → LogMeta)
    (acts : List AgentAction) :
    ∃ fs' n',
      appendAll env gen acts { lines := none, readOk := true, writeOk := true } 0
        = .ok (fs', n')
      ∧ fs'.records.length = acts.length
      ∧ getTrustGraphEntries fs' none acts.length = fs'.records
      ∧ (∀ i (hi : i + 1 < fs'.records.length),
          (fs'.records.get ⟨i + 1, hi⟩).entry.previous_hash
            = (fs'.records.get ⟨i, Nat.lt_of_succ_lt hi⟩).entry.current_hash)
      ∧ (∀ r rest, fs'.records = r :: rest → r.entry.previous_hash = none) := by
  obtain ⟨fs', n', heq, hr, hw, hc, hlen⟩ :=
    appendAll_invariant env gen acts
      { lines := none, readOk := true, writeOk := true } 0 rfl rfl rfl
  have hlen' : fs'.records.length = acts.length := by
    simpa [FS.records] using hlen
  refine ⟨fs', n', heq, hlen', ?_, ?_, ?_⟩
  · cases hfl : fs'.lines with
    | none =>
        have h0 : acts.length = 0 := by
          simpa [FS.records, hfl] using hlen'.symm
        simp [getTrustGraphEntries, getEntriesTry, hfl, FS.records]
    | some rs =>
        have hrs : fs'.records = rs := by simp [FS.records, hfl]
        rw [← hlen', hrs]
        simp only [getTrustGraphEntries, getEntriesTry, hfl, hr, if_true]
        rw [collectEntries_all rs [] rs.length (by simp)]
        simpa using pyTailSlice_full rs
  · exact chainOk_link fs'.records none hc
  · intro r rest hrr
    rw [hrr] at hc
    exact chainOk_head none r rest hc

/-! ### Canonical (sorted-key) serialization -/

/-- Adjacent object keys are in nondecreasing order. -/
def keysOrdered : List (String × Json) → Bool
  | [] => true
  | [_] => true
  | a :: b :: l => decide (a.1 ≤ b.1) && keysOrdered (b :: l)

mutual

/-- Every object reachable in the value has ordered keys. -/
def keysSorted : Json → Bool
  | .null => true
  | .bool _ => true
  | .num _ => true
  | .str _ => true
  | .arr xs => keysSortedL xs
  | .obj kvs => keysOrdered kvs && keysSortedO kvs

def keysSortedL : List Json → Bool
  | [] => true
  | x :: xs => keysSorted x && keysSortedL xs

def keysSortedO : List (String × Json) → Bool
  | [] => true
  | kv :: kvs => keysSorted kv.2 && keysSortedO kvs

end

theorem keysOrdered_tail (x : String × Json) (l : List (String × Json))
    (h : keysOrdered (x :: l) = true) : keysOrdered l = true := by
  cases l with
  | nil => rfl
  | cons y ys => simp only [keysOrdered, Bool.and_eq_true] at h; exact h.2

theorem keysOrdered_head_rel (x : String × Json) (l : List (String × Json))
    (h : keysOrdered (x :: l) = true) :
    ∀ y, l.head? = some y → x.1 ≤ y.1 := by
  intro y hy
  cases l with
  | nil => simp at hy
  | cons z zs =>
      simp only [List.head?_cons, Option.some_inj] at hy
      subst hy
      simp only [keysOrdered, Bool.and_eq_true, decide_eq_true_eq] at h
      exact h.1

theorem keysOrdered_cons (x : String × Json) (l : List (String × Json))
    (hl : keysOrdered l = true)
    (hx : ∀ y, l.head? = some y → x.1 ≤ y.1) : keysOrdered (x :: l) = true := by
  cases l with
  | nil => rfl
  | cons z zs =>
      simp only [keysOrdered, Bool.and_eq_true, decide_eq_true_eq]
      exact ⟨hx z rfl, hl⟩

theorem insertKV_head (kv : String × Json) (l : List (String × Json)) :
    ∀ y, (insertKV kv l).head? = some y → y = kv ∨ l.head? = some y := by
  intro y hy
  cases l with
  | nil => simp [insertKV] at hy; exact Or.inl hy.symm
  | cons x xs =>
      by_cases hle : kv.1 ≤ x.1
      · simp [insertKV, hle] at hy; exact Or.inl hy.symm
      · simp [insertKV, hle] at hy; exact Or.inr (by simp [hy])

theorem insertKV_ordered (kv : String × Json) :
    ∀ l, keysOrdered l = true → keysOrdered (insertKV kv l) = true := by
  intro l
  induction l with
  | nil => intro _; rfl
  | cons x xs ih =>
      intro hl
      by_cases hle : kv.1 ≤ x.1
      · simp only [insertKV, if_pos hle]
        refine keysOrdered_cons kv (x :: xs) hl ?_
        intro y hy
        simp only [List.head?_cons, Option.some_inj] at hy
        subst hy
        exact hle
      · simp only [insertKV, if_neg hle]
        have hxs := keysOrdered_tail x xs hl
        have hins := ih hxs
        refine keysOrdered_cons x (insertKV kv xs) hins ?_
        intro y hy
        rcases insertKV_head kv xs y hy with h | h
        · subst h; exact le_of_not_le hle
        · exact keysOrdered_head_rel x xs hl y h

theorem sortKVs_ordered (l : List (String × Json)) :
    keysOrdered (sortKVs l) = true := by
  induction l with
  | nil => rfl
  | cons kv t ih => exact insertKV_ordered kv (sortKVs t) ih

theorem insertKV_valsSorted (kv : String × Json) :
    ∀ l, keysSortedO l = true → keysSorted kv.2 = true →
      keysSortedO (insertKV kv l) = true := by
  intro l
  induction l with
  | nil =>
      intro _ hkv
      simp [insertKV, keysSortedO, hkv]
  | cons x xs ih =>
      intro hl hkv
      simp only [keysSortedO, Bool.and_eq_true] at hl
      by_cases hle : kv.1 ≤ x.1
      · simp only [insertKV, if_pos hle, keysSortedO, Bool.and_eq_true]
        exact ⟨hkv, hl.1, hl.2⟩
      · simp only [insertKV, if_neg hle, keysSortedO, Bool.and_eq_true]
        exact ⟨hl.1, ih hl.2 hkv⟩

theorem sortKVs_valsSorted (l : List (String × Json))
    (hl : keysSortedO l = true) : keysSortedO (sortKVs l) = true := by
  induction l with
  | nil => rfl
  | cons kv t ih =>
      simp only [keysSortedO, Bool.and_eq_true] at hl
      exact insertKV_valsSorted kv (sortKVs t) (ih hl.2) hl.1

mutual

theorem sortJson_keysSorted : ∀ j, keysSorted (sortJson j) = true
  | .null => rfl
  | .bool _ => rfl
  | .num _ => rfl
  | .str _ => rfl
  | .arr xs => by
      simpa [sortJson, keysSorted] using sortJsonL_keysSorted xs
  | .obj kvs => by
      simp only [sortJson, keysSorted, Bool.and_eq_true]
      exact ⟨sortKVs_ordered (sortJsonO kvs),
             sortKVs_valsSorted (sortJsonO kvs) (sortJsonO_keysSorted kvs)⟩

theorem sortJsonL_keysSorted : ∀ xs, keysSortedL (sortJsonL xs) = true
  | [] => rfl
  | x :: xs => by
      simp only [sortJsonL, keysSortedL, Bool.and_eq_true]
      exact ⟨sortJson_keysSorted x, sortJsonL_keysSorted xs⟩

theorem sortJsonO_keysSorted : ∀ kvs, keysSortedO (sortJsonO kvs) = true
  | [] => rfl
  | kv :: kvs => by
      simp only [sortJsonO, keysSortedO, Bool.and_eq_true]
      exact ⟨sortJson_keysSorted kv.2, sortJsonO_keysSorted kvs⟩

end

/-- C2.  Hash determinism: the entry hash depends only on the entry id,
the action fields, the previous hash and the write timestamp `t` — two
entries agreeing on those produce the same digest for any digest
function — and it is exactly a digest of the canonical sorted-key
serialization of precisely those inputs. -/
theorem C2_hashDeterminism (hf : String → String) (e eX : TrustGraphEntry) (t : ℚ)
    (h1 : e.entry_id = eX.entry_id)
    (h2 : e.agent_action = eX.agent_action)
    (h3 : e.previous_hash = eX.previous_hash) :
    generateHash hf e t = generateHash hf eX t
    ∧ generateHash hf e t = hf (render (sortJson (hashInputJson e t)))
    ∧ keysSorted (sortJson (hashInputJson e t)) = true := by
  refine ⟨?_, rfl, sortJson_keysSorted _⟩
  simp [generateHash, hashInputJson, actionDictJson, h1, h2, h3]

/-- Witness for C2 at a concrete entry pair differing only in the
fields that are not hashed (`current_hash`, `verified`). -/
def entryW : TrustGraphEntry :=
  { entry_id := "w",
    agent_action :=
      { agent_id := "a", agent_type := .builderAgent, action := "execute",
        tool := "workflow", timestamp := 1 },
    previous_hash := some "p" }

def entryW2 : TrustGraphEntry :=
  { entryW with current_hash := some "c", verified := true }

theorem C2_hashDeterminism_witness :
    generateHash (fun s => s) entryW 2 = generateHash (fun s => s) entryW2 2
    ∧ generateHash (fun s => s) entryW 2
        = (fun s => s) (render (sortJson (hashInputJson entryW 2)))
    ∧ keysSorted (sortJson (hashInputJson entryW 2)) = true :=
  C2_hashDeterminism (fun s => s) entryW entryW2 2 rfl rfl rfl

/-! ### Claim C3: ledger I/O failure semantics -/

def actQ : AgentAction :=
  { agent_id := "q", agent_type := .builderAgent, action := "execute",
    tool := "workflow", timestamp := 0 }

/-- A ledger file whose one existing entry cannot be read back (the
next read raises). -/
def recQ : SavedRecord :=
  ⟨{ entry_id := "q1", agent_action := actQ, previous_hash := none,
     current_hash := some "qh" }, "ts"⟩

def fsBroken : FS := { lines := some [recQ], readOk := false, writeOk := true }

def envQ : Env := { agents := [], hashFn := fun _ => "h" }

def metaQ : LogMeta := { entryId := "id", actionTime := 0, hashTime := 0, savedAt := "ts" }

/-- C3 counterexample.  On a nonempty ledger whose read raises, the
body of `_get_latest_hash` does raise, but `log_agent_action` still
SUCCEEDS and silently writes a genesis entry (`previous_hash = null`)
— the failure is not propagated to the caller of the append; likewise
a failing read of the entries is downgraded to the empty list instead
of an error. -/
theorem C3_counterexample :
    getLatestHashTry fsBroken = .error "read failure"
    ∧ (logAgentAction envQ metaQ fsBroken actQ).isOk = true
    ∧ (logAgentAction envQ metaQ fsBroken actQ).toOption.map
        (fun p => p.1.previous_hash) = some none
    ∧ getEntriesTry fsBroken none 100 = .error "read failure"
    ∧ getTrustGraphEntries fsBroken none 100 = [] :=
  ⟨rfl, rfl, rfl, rfl, rfl⟩

/-- C3 as amended.  An I/O failure while reading the previous head hash
is caught by `_get_latest_hash` and treated as "no predecessor": the
append then succeeds with `previous_hash = null` (silently restarting
the chain), and an I/O failure while reading the entries is caught by
`get_trust_graph_entries` and downgraded to the empty list. -/
theorem C3_ioFailureSwallowed (fs : FS) (env : Env) (meta : LogMeta)
    (a : AgentAction) (filt : Option AgentType) (lim : ℕ)
    (hbad : fs.readOk = false) (hex : fs.lines.isSome = true) :
    getLatestHash fs = none
    ∧ (fs.writeOk = true →
        (logAgentAction env meta fs a).isOk = true
        ∧ (logAgentAction env meta fs a).toOption.map
            (fun p => p.1.previous_hash) = some none)
    ∧ getTrustGraphEntries fs filt lim = [] := by
  obtain ⟨rs, hrs⟩ := Option.isSome_iff_exists.mp hex
  have hlatest : getLatestHash fs = none := by
    simp [getLatestHash, getLatestHashTry, hrs, hbad]
  refine ⟨hlatest, ?_, ?_⟩
  · intro hw
    rw [logAgentAction_of_writeOk env meta fs a hw]
    constructor
    · rfl
    · simp [Except.toOption, mkEntry_previous, hlatest]
  · simp [getTrustGraphEntries, getEntriesTry, hrs, hbad]

theorem C3_ioFailureSwallowed_witness :
    getLatestHash fsBroken = none
    ∧ (fsBroken.writeOk = true →
        (logAgentAction envQ metaQ fsBroken actQ).isOk = true
        ∧ (logAgentAction envQ metaQ fsBroken actQ).toOption.map
            (fun p => p.1.previous_hash) = some none)
    ∧ getTrustGraphEntries fsBroken none 7 = [] :=
  C3_ioFailureSwallowed fsBroken envQ metaQ actQ none 7 rfl rfl

/-! ### Executor helper lemmas -/

def fsEmpty : FS := { lines := none, readOk := true, writeOk := true }

theorem logAgentAction_ok_spec (env : Env) (meta : LogMeta) (fs : FS)
    (a : AgentAction) (e : TrustGraphEntry) (fs1 : FS)
    (h : logAgentAction env meta fs a = .ok (e, fs1)) :
    e = mkEntry env meta fs a
    ∧ fs1 = { fs with lines := some (fs.records ++ [⟨e, meta.savedAt⟩]) }
    ∧ fs.writeOk = true := by
  by_cases hw : fs.writeOk = true
  · rw [logAgentAction_of_writeOk env meta fs a hw] at h
    simp only [Except.ok.injEq, Prod.mk.injEq] at h
    obtain ⟨he, hfs⟩ := h
    subst he
    exact ⟨rfl, hfs.symm, hw⟩
  · exfalso
    simp only [Bool.not_eq_true] at hw
    simp [logAgentAction, saveEntryTry, hw] at h

theorem metaAudit_preserves_flags (env : Env) (gen : ℕ → LogMeta)
    (task : SwarmTask) (r : WfResult) (fs : FS) (n : ℕ) :
    (metaAudit env gen task r fs n).2.1.writeOk = fs.writeOk
    ∧ (metaAudit env gen task r fs n).2.1.readOk = fs.readOk := by
  unfold metaAudit
  cases getAgentByType env .metaAuditor with
  | none => exact ⟨rfl, rfl⟩
  | some auditor =>
      simp only
      cases auditor.execute [("task", taskToJson task), ("result", r.toJson),
        ("esg_criteria", esgCriteriaJson)] with
      | error e => exact ⟨rfl, rfl⟩
      | ok res =>
          simp only
          cases hlog : logAgentAction env (gen n) fs
              { agent_id := auditor.agent_id, agent_type := .metaAuditor,
                action := "audit", tool := "meta_audit",
                proposal := .str task.title,
                score := (dget res "compliance_score").getD (.num 0),
                comment := (dget res "audit_summary").getD (.str ""),
                timestamp := (gen n).actionTime,
                context := .obj [("task", taskToJson task), ("result", r.toJson),
                                 ("esg_criteria", esgCriteriaJson)] } with
          | error e => exact ⟨rfl, rfl⟩
          | ok p =>
              obtain ⟨_, hfs, _⟩ :=
                logAgentAction_ok_spec env (gen n) fs _ p.1 p.2 (by
                  simpa using hlog)
              simp [hfs]

theorem logWorkflowCompletion_of_writeOk (env : Env) (gen : ℕ → LogMeta)
    (task : SwarmTask) (r : WfResult) (fs : FS) (n : ℕ) (hw : fs.writeOk = true) :
    ∃ fs1, logWorkflowCompletion env gen task r fs n = .ok (fs1, n + 1)
      ∧ fs1.records = fs.records ++
          [⟨mkEntry env (gen n) fs
              { agent_id := "swarm_protocol", agent_type := .builderAgent,
                action := "workflow_complete", tool := "swarm_protocol",
                proposal := .str task.title,
                score := (r.get "overall_score").getD (.num 0),
                comment := .str ("Workflow " ++ task.workflow_type.value ++
                                 " completed with status " ++ task.status.value),
                timestamp := (gen n).actionTime,
                context := .obj [("task_id", .str task.task_id),
                                 ("result_summary", r.toJson)] },
            (gen n).savedAt⟩] := by
  simp only [logWorkflowCompletion]
  rw [logAgentAction_of_writeOk env (gen n) fs _ hw]
  exact ⟨_, rfl, by simp [FS.records]⟩

/-- The outcome of `execute_workflow` once the strategy has returned a
result and the ledger is healthy for the remaining appends. -/
theorem executeWorkflowWith_ok_shape
    (run : SwarmTask → FS → ℕ → Except String (WfResult × FS × ℕ))
    (env : Env) (gen : ℕ → LogMeta) (task : SwarmTask) (fs : FS) (n : ℕ)
    (r : WfResult) (fs1 : FS) (n1 : ℕ)
    (hrun : run { task with status := .running } fs n = .ok (r, fs1, n1))
    (hw1 : fs1.writeOk = true) :
    (executeWorkflowWith run env gen task fs n).result = .ok r
    ∧ (executeWorkflowWith run env gen task fs n).statusTrace =
        [.running,
         if (metaAudit env gen { task with status := .running } r fs1 n1).1.passed
         then .audited else .failed]
    ∧ (executeWorkflowWith run env gen task fs n).finalTask.status =
        (if (metaAudit env gen { task with status := .running } r fs1 n1).1.passed
         then .audited else .failed)
    ∧ (executeWorkflowWith run env gen task fs n).finalTask.context = task.context
    ∧ (executeWorkflowWith run env gen task fs n).finalTask.result = some r
    ∧ (executeWorkflowWith run env gen task fs n).auditRan = true := by
  set M := metaAudit env gen { task with status := .running } r fs1 n1 with hM
  obtain ⟨haudW, _⟩ :=
    metaAudit_preserves_flags env gen { task with status := .running } r fs1 n1
  have hw2 : M.2.1.writeOk = true := by rw [hM, haudW]; exact hw1
  obtain ⟨fs3, hcomp, _⟩ :=
    logWorkflowCompletion_of_writeOk env gen
      { task with
          status := if M.1.passed = true then TaskStatus.audited else TaskStatus.failed,
          result := some r,
          audit_log := task.audit_log ++ [M.1.audit_message] }
      r M.2.1 M.2.2 hw2
  simp only [executeWorkflowWith, hrun, ← hM, hcomp]
  exact ⟨trivial, trivial, trivial, trivial, trivial, trivial⟩

/-- The outcome of `execute_workflow` when the strategy dispatch
raises. -/
theorem executeWorkflowWith_error_shape
    (run : SwarmTask → FS → ℕ → Except String (WfResult × FS × ℕ))
    (env : Env) (gen : ℕ → LogMeta) (task : SwarmTask) (fs : FS) (n : ℕ)
    (e : String)
    (hrun : run { task with status := .running } fs n = .error e) :
    executeWorkflowWith run env gen task fs n =
      { result := .error e,
        statusTrace := [.running, .failed],
        auditRan := false,
        finalTask := { task with status := .failed },
        fs := fs, next := n } := by
  simp only [executeWorkflowWith, hrun]

/-! ### Claim C6: ledger read semantics -/

def recC6a : SavedRecord :=
  ⟨{ entry_id := "e-old", agent_action := actQ, previous_hash := none,
     current_hash := some "h1" }, "t1"⟩

def recC6b : SavedRecord :=
  ⟨{ entry_id := "e-new", agent_action := actQ, previous_hash := some "h1",
     current_hash := some "h2" }, "t2"⟩

def fsC6 : FS := { lines := some [recC6a, recC6b], readOk := true, writeOk := true }

/-- C6.  On a ledger holding more matching entries than `limit`,
`get_trust_graph_entries` returns the OLDEST `limit` entries, not the
most recent ones: the scan breaks after collecting `limit` entries from
the start of the file, which makes the final `entries[-limit:]` (whose
comment says "Return most recent entries") a no-op.  Evaluated at the
failing input: two chained entries, limit 1 — the first (oldest) entry
is returned. -/
theorem C6_readReturnsOldest :
    getTrustGraphEntries fsC6 none 1 = [recC6a]
    ∧ recC6a.entry.entry_id = "e-old"
    ∧ recC6b.entry.entry_id = "e-new"
    ∧ fsC6.records.getLast? = some recC6b :=
  ⟨rfl, rfl, rfl, rfl⟩

/-! ### Claim C7: auditor-absent default -/

def taskQ : SwarmTask :=
  { title := "t", description := "d", workflow_type := .sequential, agents := [] }

def wfResQ : WfResult := .seq { results := [], final_context := [] }

def genQ : ℕ → LogMeta :=
  fun k => { entryId := "g", actionTime := 0, hashTime := 0, savedAt := "ts" }

/-- C7 counterexample.  With no meta-auditor registered the audit phase
result carries NO `compliance_score` at all (the claim asserts it equals
1.0), and its message is `'No meta-auditor available, skipping audit'`,
not `'no auditor available'`; only the `passed = true` part holds. -/
theorem C7_counterexample :
    (metaAudit envQ genQ taskQ wfResQ fsEmpty 0).1.compliance_score = none
    ∧ (metaAudit envQ genQ taskQ wfResQ fsEmpty 0).1.passed = true
    ∧ (metaAudit envQ genQ taskQ wfResQ fsEmpty 0).1.audit_message
        ≠ Json.str "no auditor available" := by
  refine ⟨rfl, rfl, ?_⟩
  intro hcontra
  have h : (metaAudit envQ genQ taskQ wfResQ fsEmpty 0).1.audit_message
      = Json.str "No meta-auditor available, skipping audit" := rfl
  rw [h] at hcontra
  injection hcontra with hs
  exact absurd hs (by decide)

/-- C7 as amended.  Whenever no meta-auditor instance is registered,
the audit phase returns `passed = true` with the message
`'No meta-auditor available, skipping audit'` and no compliance score
(the key is absent from the returned dict), the ledger is untouched,
and — provided the strategy returned and the completion append is
healthy — the task finishes `AUDITED`. -/
theorem C7_noAuditorDefault (env : Env) (gen : ℕ → LogMeta) (task : SwarmTask)
    (r : WfResult) (fs : FS) (n : ℕ)
    (hna : getAgentByType env .metaAuditor = none) :
    metaAudit env gen task r fs n =
      ({ passed := true,
         audit_message := .str "No meta-auditor available, skipping audit",
         compliance_score := none }, fs, n)
    ∧ (∀ (run : SwarmTask → FS → ℕ → Except String (WfResult × FS × ℕ))
         (res : WfResult) (fs1 : FS) (n1 : ℕ),
        run { task with status := .running } fs n = .ok (res, fs1, n1) →
        fs1.writeOk = true →
        (executeWorkflowWith run env gen task fs n).finalTask.status = .audited) := by
  constructor
  · simp [metaAudit, hna]
  · intro run res fs1 n1 hrun hw1
    obtain ⟨_, _, hst, _⟩ :=
      executeWorkflowWith_ok_shape run env gen task fs n res fs1 n1 hrun hw1
    rw [hst]
    simp [metaAudit, hna]

theorem C7_noAuditorDefault_witness :
    metaAudit envQ genQ taskQ wfResQ fsEmpty 0 =
      ({ passed := true,
         audit_message := .str "No meta-auditor available, skipping audit",
         compliance_score := none }, fsEmpty, 0)
    ∧ (∀ (run : SwarmTask → FS → ℕ → Except String (WfResult × FS × ℕ))
         (res : WfResult) (fs1 : FS) (n1 : ℕ),
        run { taskQ with status := .running } fsEmpty 0 = .ok (res, fs1, n1) →
        fs1.writeOk = true →
        (executeWorkflowWith run envQ genQ taskQ fsEmpty 0).finalTask.status = .audited) :=
  C7_noAuditorDefault envQ genQ taskQ wfResQ fsEmpty 0 rfl

/-! ### Claim C9: unregistered kinds, sequential vs parallel -/

/-- C9.  The two strategies treat an unregistered capability kind
differently: the sequential loop skips it entirely (no entry in the
results map, no ledger append, counters untouched) while the parallel
strategy records the per-kind result `\x7b'error': 'Agent not found'\x7d`
(also with no ledger append). -/
theorem C9_unregisteredKindAsymmetry (env : Env) (gen : ℕ → LogMeta)
    (title : String) (ctx : Dict) (k : AgentType) (fs : FS) (n : ℕ)
    (h : getAgentByType env k = none) :
    seqGo env gen title [k] ctx [] fs n = ([], ctx, fs, n)
    ∧ parGo env gen title ctx [k] fs n
        = ([(k, errDict "Agent not found")], fs, n) := by
  constructor
  · simp [seqGo, h]
  · simp [parGo, h]

theorem C9_unregisteredKindAsymmetry_witness :
    seqGo envQ genQ "t" [AgentType.refactorAgent] [] [] fsEmpty 0
      = ([], [], fsEmpty, 0)
    ∧ parGo envQ genQ "t" [] [AgentType.refactorAgent] fsEmpty 0
        = ([(AgentType.refactorAgent, errDict "Agent not found")], fsEmpty, 0) :=
  C9_unregisteredKindAsymmetry envQ genQ "t" [] AgentType.refactorAgent fsEmpty 0 rfl

/-! ### Claim C8: hybrid strategy decomposition -/

def taskH1 : SwarmTask :=
  { title := "h", description := "d", workflow_type := .hybrid,
    agents := [.builderAgent] }

/-- C8 counterexample.  A hybrid task whose capability kinds all lie in
the priority subset produces NO combined-results map: the sequential
aggregate is returned unchanged, with `workflow_type = 'sequential'`
(line 308), so the claimed merge into a combined map does not happen for
every hybrid task. -/
theorem C8_counterexample :
    (execHybridTask envQ genQ taskH1 fsEmpty 0).1.workflowType = "sequential"
    ∧ (execHybridTask envQ genQ taskH1 fsEmpty 0).1.hasCombined = false :=
  ⟨rfl, rfl⟩

/-- C8 as amended.  For every hybrid task with at least one capability
kind outside the priority subset (builder/allocator, permit/compliance):
the priority kinds run first, sequentially, in task-list order; the
remaining kinds then run in parallel on the context produced by the
sequential phase; and the returned aggregate is the hybrid combination
whose combined map merges the per-kind results of both phases.  Hybrid
tasks with no remaining kind return the bare sequential aggregate. -/
theorem C8_hybridDecomposition (env : Env) (gen : ℕ → LogMeta)
    (task : SwarmTask) (fs : FS) (n : ℕ)
    (hne : task.agents.filter (fun a => !priorityAgents.contains a) ≠ []) :
    ∃ s fsA nA p fsB nB,
      execSequentialTask env gen (hybridSeqTask task) fs n = (s, fsA, nA)
      ∧ execParallelTask env gen (hybridParTask task s.final_context) fsA nA
          = (p, fsB, nB)
      ∧ execHybridTask env gen task fs n
          = (.hyb s p (mergeResults s.results p.results), fsB, nB)
      ∧ (hybridSeqTask task).agents
          = task.agents.filter (fun a => priorityAgents.contains a)
      ∧ (hybridParTask task s.final_context).agents
          = task.agents.filter (fun a => !priorityAgents.contains a)
      ∧ (hybridParTask task s.final_context).context = s.final_context := by
  have hcond : (task.agents.filter (fun a => !priorityAgents.contains a)).isEmpty
      = false := by
    cases hfe : (task.agents.filter (fun a => !priorityAgents.contains a)) with
    | nil => exact absurd hfe hne
    | cons x xs => simp [List.isEmpty]
  refine ⟨(execSequentialTask env gen (hybridSeqTask task) fs n).1,
          (execSequentialTask env gen (hybridSeqTask task) fs n).2.1,
          (execSequentialTask env gen (hybridSeqTask task) fs n).2.2,
          _, _, _, rfl, rfl, ?_, rfl, rfl, rfl⟩
  simp only [execHybridTask, hcond, Bool.false_eq_true, if_false]
  rfl

def taskH2 : SwarmTask :=
  { title := "h2", description := "d", workflow_type := .hybrid,
    agents := [.builderAgent, .signalAgent] }

theorem C8_hybridDecomposition_witness :
    taskH2.agents.filter (fun a => !priorityAgents.contains a) ≠ []
    ∧ ∃ s fsA nA p fsB nB,
        execSequentialTask envQ genQ (hybridSeqTask taskH2) fsEmpty 0 = (s, fsA, nA)
        ∧ execParallelTask envQ genQ (hybridParTask taskH2 s.final_context) fsA nA
            = (p, fsB, nB)
        ∧ execHybridTask envQ genQ taskH2 fsEmpty 0
            = (.hyb s p (mergeResults s.results p.results), fsB, nB)
        ∧ (hybridSeqTask taskH2).agents
            = taskH2.agents.filter (fun a => priorityAgents.contains a)
        ∧ (hybridParTask taskH2 s.final_context).agents
            = taskH2.agents.filter (fun a => !priorityAgents.contains a)
        ∧ (hybridParTask taskH2 s.final_context).context = s.final_context :=
  ⟨by decide, C8_hybridDecomposition envQ genQ taskH2 fsEmpty 0 (by decide)⟩

/-! ### Claim C10: sequential execution does not mutate the task context -/

/-- The final task record of `execute_workflow` keeps the task's own
context unchanged on every path. -/
theorem executeWorkflowWith_context
    (run : SwarmTask → FS → ℕ → Except String (WfResult × FS × ℕ))
    (env : Env) (gen : ℕ → LogMeta) (task : SwarmTask) (fs : FS) (n : ℕ) :
    (executeWorkflowWith run env gen task fs n).finalTask.context = task.context := by
  simp only [executeWorkflowWith]
  split
  · rfl
  · split <;> rfl

/-- The running context of the sequential loop is always a fold of
`dict.update` steps over its starting value (the copy of
`task.context`). -/
theorem seqGo_final_context (env : Env) (gen : ℕ → LogMeta) (title : String) :
    ∀ (ags : List AgentType) (ctx : Dict) (res : List (AgentType × Dict))
      (fs : FS) (n : ℕ),
      ∃ us : List Dict,
        (seqGo env gen title ags ctx res fs n).2.1 = us.foldl dictUpdate ctx := by
  intro ags
  induction ags with
  | nil => intro ctx res fs n; exact ⟨[], rfl⟩
  | cons t ts ih =>
      intro ctx res fs n
      simp only [seqGo]
      cases getAgentByType env t with
      | none => exact ih ctx res fs n
      | some ag =>
          simp only
          cases ag.execute ctx with
          | error e => exact ih ctx (pySetR res t (errDict e)) fs n
          | ok r =>
              simp only
              cases logAgentAction env (gen n) fs
                  (mkInvokeAction ag t title
                    (dictUpdate ctx (getSubDict r "context_updates")) r
                    (gen n).actionTime) with
              | error e =>
                  obtain ⟨us, hus⟩ := ih (dictUpdate ctx (getSubDict r "context_updates"))
                    (pySetR (pySetR res t r) t (errDict e)) fs (n + 1)
                  exact ⟨getSubDict r "context_updates" :: us, by simpa using hus⟩
              | ok p =>
                  obtain ⟨us, hus⟩ := ih (dictUpdate ctx (getSubDict r "context_updates"))
                    (pySetR res t r) p.2 (n + 1)
                  exact ⟨getSubDict r "context_updates" :: us, by simpa using hus⟩

/-- C10.  Sequential execution never mutates the task's own context:
after `execute_workflow` on a sequential task the task record still
carries the original context, and all merged `context_updates` appear
only in the returned `final_context`, which is a fold of updates
starting from (a copy of) `task.context`. -/
theorem C10_sequentialContextFrame (env : Env) (gen : ℕ → LogMeta)
    (task : SwarmTask) (fs : FS) (n : ℕ)
    (ht : task.workflow_type = .sequential) :
    (executeWorkflow env gen task fs n).finalTask.context = task.context
    ∧ ∃ us : List Dict,
        (execSequentialTask env gen task fs n).1.final_context
          = us.foldl dictUpdate task.context := by
  constructor
  · exact executeWorkflowWith_context (dispatchStrategy env gen) env gen task fs n
  · exact seqGo_final_context env gen task.title task.agents task.context [] fs n

theorem C10_sequentialContextFrame_witness :
    (executeWorkflow envQ genQ taskQ fsEmpty 0).finalTask.context = taskQ.context
    ∧ ∃ us : List Dict,
        (execSequentialTask envQ genQ taskQ fsEmpty 0).1.final_context
          = us.foldl dictUpdate taskQ.context :=
  C10_sequentialContextFrame envQ genQ taskQ fsEmpty 0 rfl

/-! ### Claim C4: sequential partial-failure tolerance -/

/-- A registry with three registered instances: builder, signal and
permit kinds, with the given `execute` behaviors. -/
def env3 (fB fS fP : Dict → Except String Dict) (hf : String → String) : Env :=
  { agents := [{ agent_id := "b1", agent_type := .builderAgent, execute := fB },
               { agent_id := "s1", agent_type := .signalAgent, execute := fS },
               { agent_id := "p1", agent_type := .permitAgent, execute := fP }],
    hashFn := hf }

/-- A sequential task over the three registered kinds, in order. -/
def task3 (ctx : Dict) : SwarmTask :=
  { title := "t3", description := "d", workflow_type := .sequential,
    agents := [.builderAgent, .signalAgent, .permitAgent], context := ctx }

/-- Number of ledger entries whose action verb is `a`. -/
def countAction (fs : FS) (a : String) : ℕ :=
  (fs.records.filter (fun r => r.entry.agent_action.action == a)).length

/-- Number of ledger entries recorded for capability kind `t`. -/
def countKind (fs : FS) (t : AgentType) : ℕ :=
  (fs.records.filter (fun r => r.entry.agent_action.agent_type == t)).length

/-- `execute_workflow` over `env3` / `task3` starting from an empty
healthy ledger. -/
def C4run (fB fS fP : Dict → Except String Dict) (hf : String → String)
    (gen : ℕ → LogMeta) (ctx : Dict) : ExecOutcome :=
  executeWorkflow (env3 fB fS fP hf) gen (task3 ctx) fsEmpty 0

def outC4 : ExecOutcome :=
  C4run (fun _ => .ok []) (fun _ => .error "boom") (fun _ => .ok [])
    (fun _ => "h") genQ []

/-- C4 counterexample.  Running the 3-kind sequential task where the
2nd instance throws: the ledger afterwards holds only TWO invocation
entries — none for the failed kind, because `log_agent_action` is only
reached after a successful `agent.execute` — plus one workflow-complete
entry (3 entries in total, not the claimed 3 invocations + 1
completion). -/
theorem C4_counterexample :
    countAction outC4.fs "execute" = 2
    ∧ countKind outC4.fs .signalAgent = 0
    ∧ countAction outC4.fs "workflow_complete" = 1
    ∧ outC4.fs.records.length = 3 :=
  ⟨rfl, rfl, rfl, rfl⟩

/-- The outcome of the C4 scenario: the 1st and 3rd instances return
`rB` / `rP`, the 2nd raises `em`. -/
def outC4g (rB rP : Dict) (em : String) (hf : String → String)
    (gen : ℕ → LogMeta) (ctx : Dict) : ExecOutcome :=
  C4run (fun _ => .ok rB) (fun _ => .error em) (fun _ => .ok rP) hf gen ctx

/-- C4 as amended.  For the sequential task of 3 registered kinds whose
2nd instance throws: execution continues past the failure, the result
map holds success entries for kinds 1 and 3 and an error entry for kind
2, the failure never propagates out of `execute` (the task even finishes
AUDITED with no auditor registered), and the ledger afterwards contains
2 invocation entries — the failed kind is never logged — plus 1
workflow-complete entry. -/
theorem C4_partialFailureTolerance (rB rP : Dict) (em : String)
    (hf : String → String) (gen : ℕ → LogMeta) (ctx : Dict) :
    (outC4g rB rP em hf gen ctx).result
      = .ok (.seq
        { results := [(.builderAgent, rB), (.signalAgent, errDict em),
                      (.permitAgent, rP)],
          final_context :=
            dictUpdate (dictUpdate ctx (getSubDict rB "context_updates"))
              (getSubDict rP "context_updates") })
    ∧ (outC4g rB rP em hf gen ctx).finalTask.status = .audited
    ∧ countAction (outC4g rB rP em hf gen ctx).fs "execute" = 2
    ∧ countKind (outC4g rB rP em hf gen ctx).fs .signalAgent = 0
    ∧ countAction (outC4g rB rP em hf gen ctx).fs "workflow_complete" = 1
    ∧ (outC4g rB rP em hf gen ctx).fs.records.length = 3 :=
  ⟨rfl, rfl, rfl, rfl, rfl, rfl⟩

/-! ### Claim C5: the task status state machine -/

/-- The status assignments of `execute_workflow` always form one of the
three traces `[RUNNING, FAILED]` (strategy raised), `[RUNNING, st]`
(normal completion) or `[RUNNING, st, FAILED]` (completion append
raised), with `st ∈ \x7bAUDITED, FAILED\x7d`. -/
theorem executeWorkflowWith_trace
    (run : SwarmTask → FS → ℕ → Except String (WfResult × FS × ℕ))
    (env : Env) (gen : ℕ → LogMeta) (task : SwarmTask) (fs : FS) (n : ℕ) :
    ∃ st, (st = TaskStatus.audited ∨ st = TaskStatus.failed)
      ∧ ((executeWorkflowWith run env gen task fs n).statusTrace
            = [.running, .failed]
         ∨ (executeWorkflowWith run env gen task fs n).statusTrace = [.running, st]
         ∨ (executeWorkflowWith run env gen task fs n).statusTrace
              = [.running, st, .failed]) := by
  simp only [executeWorkflowWith]
  split
  · exact ⟨.failed, Or.inr rfl, Or.inl rfl⟩
  · split
    · exact ⟨_, by split_ifs <;> simp, Or.inr (Or.inr rfl)⟩
    · exact ⟨_, by split_ifs <;> simp, Or.inr (Or.inl rfl)⟩

/-- C5.  The status state machine of `execute_workflow`: the status is
set to RUNNING on entry; if the strategy dispatch raises, the task ends
FAILED and the audit phase never runs; on a successful strategy run
(with a healthy ledger for the remaining appends) the task ends AUDITED
exactly when the audit phase reports pass — and the canonical
MetaAuditor reports pass exactly when its compliance score reaches 0.7;
the COMPLETED status value is never assigned by any transition; and
`execute_workflow` is exactly this machine over the strategy
dispatcher. -/
theorem C5_statusStateMachine
    (run : SwarmTask → FS → ℕ → Except String (WfResult × FS × ℕ))
    (env : Env) (gen : ℕ → LogMeta) (task : SwarmTask) (fs : FS) (n : ℕ) :
    (executeWorkflowWith run env gen task fs n).statusTrace.head? = some .running
    ∧ (∀ e, run { task with status := .running } fs n = .error e →
        (executeWorkflowWith run env gen task fs n).finalTask.status = .failed
        ∧ (executeWorkflowWith run env gen task fs n).auditRan = false)
    ∧ (∀ r fs1 n1, run { task with status := .running } fs n = .ok (r, fs1, n1) →
        fs1.writeOk = true →
        ((executeWorkflowWith run env gen task fs n).finalTask.status = .audited
          ↔ (metaAudit env gen { task with status := .running } r fs1 n1).1.passed
              = true))
    ∧ TaskStatus.completed ∉ (executeWorkflowWith run env gen task fs n).statusTrace
    ∧ (∀ now ctx res, metaAuditorExecute now ctx = .ok res →
        dget res "passed" = some (.bool (decide
          (calcEsgScore (pyRepr ((dget ctx "result").getD (.obj []))) ≥ 7/10))))
    ∧ executeWorkflow env gen task fs n
        = executeWorkflowWith (dispatchStrategy env gen) env gen task fs n := by
  obtain ⟨st, hst, htr⟩ := executeWorkflowWith_trace run env gen task fs n
  refine ⟨?_, ?_, ?_, ?_, ?_, rfl⟩
  · rcases htr with h | h | h <;> rw [h] <;> rfl
  · intro e hrun
    rw [executeWorkflowWith_error_shape run env gen task fs n e hrun]
    exact ⟨rfl, rfl⟩
  · intro r fs1 n1 hrun hw1
    obtain ⟨_, _, hfin, _⟩ :=
      executeWorkflowWith_ok_shape run env gen task fs n r fs1 n1 hrun hw1
    rw [hfin]
    rcases Bool.eq_false_or_eq_true
      ((metaAudit env gen { task with status := .running } r fs1 n1).1.passed)
      with hp | hp
    · simp [hp]
    · simp [hp]
  · rcases hst with h1 | h1 <;> subst h1 <;> rcases htr with h | h | h <;>
      rw [h] <;> decide
  · intro now ctx res h
    injection h with h1
    subst h1
    rfl

def runC5 : SwarmTask → FS → ℕ → Except String (WfResult × FS × ℕ) :=
  fun _ f k => .ok (wfResQ, f, k)

theorem C5_statusStateMachine_witness :
    (executeWorkflowWith runC5 envQ genQ taskQ fsEmpty 0).statusTrace.head?
        = some .running
    ∧ (∀ e, runC5 { taskQ with status := .running } fsEmpty 0 = .error e →
        (executeWorkflowWith runC5 envQ genQ taskQ fsEmpty 0).finalTask.status
            = .failed
        ∧ (executeWorkflowWith runC5 envQ genQ taskQ fsEmpty 0).auditRan = false)
    ∧ (∀ r fs1 n1, runC5 { taskQ with status := .running } fsEmpty 0
          = .ok (r, fs1, n1) →
        fs1.writeOk = true →
        ((executeWorkflowWith runC5 envQ genQ taskQ fsEmpty 0).finalTask.status
            = .audited
          ↔ (metaAudit envQ genQ { taskQ with status := .running } r fs1 n1).1.passed
              = true))
    ∧ TaskStatus.completed
        ∉ (executeWorkflowWith runC5 envQ genQ taskQ fsEmpty 0).statusTrace
    ∧ (∀ now ctx res, metaAuditorExecute now ctx = .ok res →
        dget res "passed" = some (.bool (decide
          (calcEsgScore (pyRepr ((dget ctx "result").getD (.obj []))) ≥ 7/10))))
    ∧ executeWorkflow envQ genQ taskQ fsEmpty 0
        = executeWorkflowWith (dispatchStrategy envQ genQ) envQ genQ taskQ fsEmpty 0 :=
  C5_statusStateMachine runC5 envQ genQ taskQ fsEmpty 0

end Swarm
